import Mathlib

/-!
Shallow embedding of the concurrent transfer engine of `speedtest-rs`
(`src/io.rs`), together with theorems settling the frozen claims about its
natural-language specification.

Modelling conventions:
* machine integers (`usize`) are `Nat`; the one place where Rust overflow
  semantics matter (the `bytes - msg.len()` subtraction in `upload`) is
  modelled explicitly with checked/wrapping subtraction at width 64;
* a payload chunk is modelled as a pair `(alphanumeric length, sentinel?)`:
  the generator fills a chunk with `length` alphanumeric bytes (never equal
  to the newline byte) and, when the sentinel flag is set, pushes one extra
  trailing byte `'\n'`, so the chunk's byte length is `length + 1`;
* wall-clock instants and the bytes observed by the live sampler are inputs
  (an observation trace), since the real values come from the scheduler;
* thread results joined by the multi-connection orchestrators are a list of
  `Except` values in spawn order, which is also the join order of the
  `for h in handles` loop;
* throughputs (`f64` in the source) are modelled as exact rationals: the
  claims are about the formulas, not about floating-point rounding.
-/

namespace Speedtest

/-- Chunk size bound from `io.rs`: `pub const MB: usize = 1024 * 1024`. -/
def MB : Nat := 1024 * 1024

/-- Sampler granularity from `io.rs`: `pub const MEASURE: usize = 32`. -/
def MEASURE : Nat := 32

/-- Handshake line of `upload`: `format!("UPLOAD \x7b\x7d 0\r\n", bytes)`. -/
def uploadMsg (bytes : Nat) : String :=
  "UPLOAD " ++ toString bytes ++ " 0\r\n"

/-- Handshake line of `download`: `format!("DOWNLOAD \x7b\x7d\r\n", bytes)`. -/
def downloadMsg (bytes : Nat) : String :=
  "DOWNLOAD " ++ toString bytes ++ "\r\n"

/-- Payload generator loop of `upload`, fuelled (each iteration consumes at
least one byte of `left`, so `fuel = left` suffices).  A chunk is
`(length, sentinel?)` where `length = MB.min(left)` and the sentinel flag is
`left < MB`, mirroring

  while left > 0 { let length = MB.min(left); ...
    if left < MB { buf.push(b'\n'); }; tx.send(buf); left -= length; } -/
def genChunksAux : Nat → Nat → List (Nat × Bool)
  | _, 0 => []
  | 0, _ + 1 => []
  | fuel + 1, left + 1 =>
      (Nat.min MB (left + 1), decide (left + 1 < MB)) ::
        genChunksAux fuel (left + 1 - Nat.min MB (left + 1))

/-- Chunks produced by the payload generator for `left` remaining bytes. -/
def genChunks (left : Nat) : List (Nat × Bool) :=
  genChunksAux left left

/-- Byte length of a chunk as written to the socket and added to the shared
counter: the alphanumeric payload plus the optional sentinel byte. -/
def chunkLen (c : Nat × Bool) : Nat :=
  c.1 + (if c.2 then 1 else 0)

/-- Write loop of `upload`: pop chunks, add each chunk's byte length to the
counter, stop on a chunk whose last byte is `'\n'` (exactly the chunks with
the sentinel flag, as alphanumeric bytes are never `'\n'`).  Returns the
final counter value and whether a sentinel chunk was observed; on an empty
remainder the channel is closed and `rx.recv()` fails (`false`). -/
def writeLoop : List (Nat × Bool) → Nat → Nat × Bool
  | [], c => (c, false)
  | ch :: rest, c =>
      if ch.2 then (c + chunkLen ch, true) else writeLoop rest (c + chunkLen ch)

/-- Counter values observed after each addition performed by the write loop
of `upload`, starting from counter value `c`. -/
def chunkTrace : List (Nat × Bool) → Nat → List Nat
  | [], _ => []
  | ch :: rest, c =>
      (c + chunkLen ch) :: (if ch.2 then [] else chunkTrace rest (c + chunkLen ch))

/-- Every counter value during a single-connection upload of `bytes` bytes:
the value after the handshake addition, then after each chunk addition. -/
def uploadCounterValues (bytes : Nat) : List Nat :=
  (uploadMsg bytes).length ::
    chunkTrace (genChunks (bytes - (uploadMsg bytes).length)) (uploadMsg bytes).length

/-- Errors `upload` can return after the handshake: the receive on the
closed generator channel failing, or the acknowledgement validation failure
carrying the requested size and the received line. -/
inductive UploadError where
  | recvClosed : UploadError
  | interrupted (bytes : Nat) (line : List Char) : UploadError
deriving DecidableEq, Repr

/-- Acknowledgement check of `upload`: `line.contains(&format!("\x7b\x7d", bytes))`,
substring containment of the decimal representation. -/
def uploadAckOk (bytes : Nat) (line : List Char) : Bool :=
  decide ((toString bytes).data <:+: line)

/-- Single-connection upload (`upload` in `io.rs`): send handshake and add
its length to the counter, run the write loop over the generated chunks,
then read the acknowledgement `line` and validate it.  Returns the final
shared-counter value together with the result; on success the throughput is
`bytes / time * 8` (time in microseconds). -/
def upload (bytes time : Nat) (line : List Char) : Nat × Except UploadError ℚ :=
  let msgLen := (uploadMsg bytes).length
  let w := writeLoop (genChunks (bytes - msgLen)) msgLen
  if w.2 then
    if uploadAckOk bytes line then (w.1, Except.ok ((bytes : ℚ) / time * 8))
    else (w.1, Except.error (UploadError.interrupted bytes line))
  else (w.1, Except.error UploadError.recvClosed)

/-- Read loop of `download` over the successive `fill_buf` results, each
modelled as `(length, endsWithNewline?)`: the buffer length is added to the
counter, then the loop stops if the length is zero (peer closed) or the last
byte is the sentinel; otherwise the buffer is consumed and the loop
continues.  Returns the total added to the counter. -/
def downloadCount : List (Nat × Bool) → Nat
  | [] => 0
  | (l, nl) :: rest => if l = 0 || nl then l else l + downloadCount rest

/-- Counter values observed after each addition performed by the read loop
of `download`, starting from counter value `c`. -/
def dlTrace : List (Nat × Bool) → Nat → List Nat
  | [], _ => []
  | (l, nl) :: rest, c =>
      (c + l) :: (if l = 0 || nl then [] else dlTrace rest (c + l))

/-- Final validation of `download`: `if len.load(..) != bytes` it fails with
the fixed message `"Download was interrupted"` (no values interpolated),
otherwise it returns throughput `bytes / time * 8`. -/
def downloadFinish (bytes time observed : Nat) : Except String ℚ :=
  if observed ≠ bytes then Except.error "Download was interrupted"
  else Except.ok ((bytes : ℚ) / time * 8)

/-- Single-connection download (`download` in `io.rs`): run the read loop
over the incoming buffers and validate the final counter value.  Returns the
final counter value together with the result. -/
def download (bytes time : Nat) (bufs : List (Nat × Bool)) : Nat × Except String ℚ :=
  (downloadCount bufs, downloadFinish bytes time (downloadCount bufs))

/-- State of the live sampler `measure`: the counter value and instant of
the most recent speed report (`old_len`, `old_time`), both absolute. -/
structure MeasState where
  old_len : Nat
  old_time : Nat
deriving DecidableEq, Repr

/-- Break condition of one `measure` iteration that read counter value
`new_len` at absolute instant `t` (microseconds):
`new_len >= bytes || time > 20_000_000` with `time = t - old_time`. -/
def measStop (bytes : Nat) (s : MeasState) (new_len t : Nat) : Bool :=
  bytes ≤ new_len || 20000000 < t - s.old_time

/-- State update of one `measure` iteration: when the delta since the last
report exceeds `bytes / MEASURE`, a speed line is logged and both `old_len`
and `old_time` are reset to the just-observed values. -/
def measNext (bytes : Nat) (s : MeasState) (new_len t : Nat) : MeasState :=
  if bytes / MEASURE < new_len - s.old_len then ⟨new_len, t⟩ else s

/-- Polling loop of `measure` over a trace of observations
`(counter value, absolute instant)`: returns the index of the iteration at
which the loop breaks, or `none` if the loop is still polling when the
trace ends.  The break check of an iteration uses the pre-reset state, as
`delta` and `time` are computed before the conditional reset. -/
def measure (bytes : Nat) (s : MeasState) : List (Nat × Nat) → Option Nat
  | [] => none
  | (new_len, t) :: rest =>
      if measStop bytes s new_len t then some 0
      else (measure bytes (measNext bytes s new_len t) rest).map (· + 1)

/-- Sampler state at the start of iteration `k`: the initial state folded
through the resets of the first `k` observations. -/
def measStateAt (bytes : Nat) (s : MeasState) (tr : List (Nat × Nat)) (k : Nat) : MeasState :=
  (tr.take k).foldl (fun st p => measNext bytes st p.1 p.2) s

/-- Effective byte budget of the multi-connection orchestrators
(`upload_mt` / `download_mt`): `let bytes = bytes / thread * thread`. -/
def mtEffectiveBytes (bytes thread : Nat) : Nat :=
  bytes / thread * thread

/-- Per-connection share passed to each executor by the orchestrators:
`bytes / thread` of the rebound (effective) byte budget. -/
def mtShare (bytes thread : Nat) : Nat :=
  mtEffectiveBytes bytes thread / thread

/-- Aggregate throughput reported by the orchestrators:
`bytes as f64 / time as f64 * 8.0` with `bytes` the effective budget. -/
def mtThroughput (bytes thread time : Nat) : ℚ :=
  (mtEffectiveBytes bytes thread : ℚ) / time * 8

/-- Join loop of the orchestrators, `for h in handles { h.join().unwrap()?; }`,
over the executor results in spawn (= join) order: stops at the first
`Except.error` and propagates it; otherwise collects every result. -/
def joinResults {E A : Type} : List (Except E A) → Except E (List A)
  | [] => Except.ok []
  | Except.ok a :: rest => (joinResults rest).map (a :: ·)
  | Except.error e :: _ => Except.error e

/-- Number of executor threads the join loop actually waits for: every
handle up to and including the first failing one; the remaining handles are
dropped when `?` propagates, which detaches their threads. -/
def joinedCount {E A : Type} : List (Except E A) → Nat
  | [] => 0
  | Except.ok _ :: rest => joinedCount rest + 1
  | Except.error _ :: _ => 1

/-- Decides whether an executor result is a failure. -/
def isErr {E A : Type} : Except E A → Bool
  | Except.error _ => true
  | Except.ok _ => false

/-- Event of a multi-connection download against the one shared counter:
executor `i` adds `amt` bytes (one `fetch_add`), or executor `i` performs
its final validation read (`len.load`) of the counter. -/
inductive DlEvent where
  | add (i amt : Nat) : DlEvent
  | check (i : Nat) : DlEvent
deriving DecidableEq, Repr

/-- Total bytes executor `i` adds to the shared counter over a trace. -/
def addTotal : List DlEvent → Nat → Nat
  | [], _ => 0
  | DlEvent.add j a :: rest, i => (if j = i then a else 0) + addTotal rest i
  | DlEvent.check _ :: rest, i => addTotal rest i

/-- Total bytes added to the shared counter by all executors. -/
def grandTotal : List DlEvent → Nat
  | [] => 0
  | DlEvent.add _ a :: rest => a + grandTotal rest
  | DlEvent.check _ :: rest => grandTotal rest

/-- Number of validation reads executor `i` performs over a trace. -/
def checkCount : List DlEvent → Nat → Nat
  | [], _ => 0
  | DlEvent.add _ _ :: rest, i => checkCount rest i
  | DlEvent.check j :: rest, i => (if j = i then 1 else 0) + checkCount rest i

/-- True when executor `i` performs no addition in the trace. -/
def noAdd : List DlEvent → Nat → Bool
  | [], _ => true
  | DlEvent.add j _ :: rest, i => (j != i) && noAdd rest i
  | DlEvent.check _ :: rest, i => noAdd rest i

/-- Program order of one executor: all its additions happen before its
validation read (the executor loads the counter only after its read loop). -/
def addsBeforeCheck : List DlEvent → Nat → Bool
  | [], _ => true
  | DlEvent.add _ _ :: rest, i => addsBeforeCheck rest i
  | DlEvent.check j :: rest, i => if j = i then noAdd rest i else addsBeforeCheck rest i

/-- Executor index named by an event. -/
def evIdx : DlEvent → Nat
  | DlEvent.add i _ => i
  | DlEvent.check i => i

/-- All events of the trace belong to executors `0, ..., n-1`. -/
def allIdxLt (n : Nat) (tr : List DlEvent) : Bool :=
  tr.all (fun e => evIdx e < n)

/-- Counter value executor `i` observes at its first validation read, with
the counter starting at `c`. -/
def obsAt : List DlEvent → Nat → Nat → Option Nat
  | [], _, _ => none
  | DlEvent.add _ a :: rest, c, i => obsAt rest (c + a) i
  | DlEvent.check j :: rest, c, i => if j = i then some c else obsAt rest c i

/-- Well-formed interleaving of a fully successful `download_mt` with `n`
connections of `share` bytes each: every executor belongs to the batch,
receives its full share (adds exactly `share` bytes), validates exactly
once, and validates only after all its own additions. -/
def wfTrace (n share : Nat) (tr : List DlEvent) : Bool :=
  allIdxLt n tr &&
    (List.range n).all fun i =>
      addTotal tr i == share && checkCount tr i == 1 && addsBeforeCheck tr i

/-- Multi-connection upload orchestrator (`upload_mt`): the effective byte
budget is transferred by `thread` executors whose results are joined in
spawn order; on success the aggregate throughput is
`bytes / time * 8` over the effective budget. -/
def upload_mt (bytes thread time : Nat) (results : List (Except UploadError ℚ)) :
    Except UploadError ℚ :=
  (joinResults results).map fun _ => mtThroughput bytes thread time

/-- Multi-connection download orchestrator (`download_mt`), analogous to
`upload_mt` with the download executor's error type. -/
def download_mt (bytes thread time : Nat) (results : List (Except String ℚ)) :
    Except String ℚ :=
  (joinResults results).map fun _ => mtThroughput bytes thread time

/-- Width of `usize` on the 64-bit targets the program runs on. -/
def USIZE : Nat := 2 ^ 64

/-- Rust `usize` subtraction with overflow checks (debug profile): panics,
modelled as `none`, when the subtrahend exceeds the minuend. -/
def usizeSubChecked (a b : Nat) : Option Nat :=
  if a < b then none else some (a - b)

/-- Rust `usize` subtraction in the release profile: wraps modulo `2 ^ 64`. -/
def usizeSubWrap (a b : Nat) : Nat :=
  (USIZE + a - b) % USIZE

/-!  Helper lemmas about the payload generator.  -/

theorem genChunksAux_zero (fuel : Nat) : genChunksAux fuel 0 = [] := by
  cases fuel <;> rfl

theorem genChunksAux_succ (f l : Nat) :
    genChunksAux (f + 1) (l + 1) =
      (Nat.min MB (l + 1), decide (l + 1 < MB)) ::
        genChunksAux f (l + 1 - Nat.min MB (l + 1)) := by
  simp only [genChunksAux]

theorem genChunksAux_closed : ∀ fuel left : Nat, left ≤ fuel →
    genChunksAux fuel left =
      List.replicate (left / MB) (MB, false) ++
        (if left % MB = 0 then [] else [(left % MB, true)]) := by
  intro fuel
  induction fuel with
  | zero =>
      intro left h
      have h0 : left = 0 := Nat.le_zero.mp h
      subst h0
      rw [genChunksAux_zero, Nat.zero_div, Nat.zero_mod, List.replicate_zero, if_pos rfl]
      rfl
  | succ f ih =>
      intro left h
      match left with
      | 0 =>
        rw [genChunksAux_zero, Nat.zero_div, Nat.zero_mod, List.replicate_zero, if_pos rfl]
        rfl
      | l + 1 =>
        have hMB : MB = 1048576 := rfl
        rw [genChunksAux_succ]
        by_cases hlt : l + 1 < MB
        · have hmin : Nat.min MB (l + 1) = l + 1 := Nat.min_eq_right (Nat.le_of_lt hlt)
          have hmod : (l + 1) % MB = l + 1 := Nat.mod_eq_of_lt hlt
          have hdiv : (l + 1) / MB = 0 := Nat.div_eq_of_lt hlt
          rw [hmin, hmod, hdiv, Nat.sub_self, genChunksAux_zero]
          have hne : l + 1 ≠ 0 := Nat.succ_ne_zero l
          rw [List.replicate_zero, if_neg hne, decide_eq_true hlt, List.nil_append]
        · have hge : MB ≤ l + 1 := Nat.le_of_not_lt hlt
          have hmin : Nat.min MB (l + 1) = MB := Nat.min_eq_left hge
          have hle : l + 1 ≤ f + 1 := h
          have hrec : l + 1 - MB ≤ f := by
            have h1 : (1 : Nat) ≤ MB := by rw [hMB]; omega
            omega
          have hmod : (l + 1 - MB) % MB = (l + 1) % MB := by
            rw [hMB]
            rw [hMB] at hge
            omega
          have hdiv : (l + 1) / MB = (l + 1 - MB) / MB + 1 := by
            rw [hMB]
            rw [hMB] at hge
            omega
          rw [hmin, ih _ hrec, hmod, hdiv, List.replicate_succ, decide_eq_false hlt,
            List.cons_append]

theorem genChunks_closed (left : Nat) :
    genChunks left =
      List.replicate (left / MB) (MB, false) ++
        (if left % MB = 0 then [] else [(left % MB, true)]) :=
  genChunksAux_closed left left (Nat.le_refl left)


theorem writeLoop_nil (c : Nat) : writeLoop [] c = (c, false) := rfl

theorem writeLoop_cons (ch : Nat × Bool) (rest : List (Nat × Bool)) (c : Nat) :
    writeLoop (ch :: rest) c =
      if ch.2 then (c + chunkLen ch, true) else writeLoop rest (c + chunkLen ch) := rfl

theorem writeLoop_replicate (k : Nat) (rest : List (Nat × Bool)) (acc : Nat) :
    writeLoop (List.replicate k (MB, false) ++ rest) acc =
      writeLoop rest (acc + k * MB) := by
  induction k generalizing acc with
  | zero => rw [List.replicate_zero, List.nil_append, Nat.zero_mul, Nat.add_zero]
  | succ k ih =>
      rw [List.replicate_succ, List.cons_append, writeLoop_cons]
      have h2 : ((MB, false) : Nat × Bool).2 = false := rfl
      rw [h2, if_neg (by exact Bool.false_ne_true), ih]
      congr 1
      show acc + (MB + 0) + k * MB = acc + (k + 1) * MB
      ring

theorem writeLoop_genChunks_sent (l acc : Nat) (h : l % MB ≠ 0) :
    writeLoop (genChunks l) acc = (acc + l + 1, true) := by
  rw [genChunks_closed, if_neg h, writeLoop_replicate, writeLoop_cons]
  have h2 : ((l % MB, true) : Nat × Bool).2 = true := rfl
  rw [h2, if_pos rfl]
  have hchunk : chunkLen (l % MB, true) = l % MB + 1 := rfl
  rw [hchunk]
  have hMB : MB = 1048576 := rfl
  rw [hMB]
  have harith : acc + l / 1048576 * 1048576 + (l % 1048576 + 1) = acc + l + 1 := by omega
  rw [harith]

theorem writeLoop_genChunks_nosent (l acc : Nat) (h : l % MB = 0) :
    writeLoop (genChunks l) acc = (acc + l, false) := by
  rw [genChunks_closed, if_pos h, writeLoop_replicate, writeLoop_nil]
  have hMB : MB = 1048576 := rfl
  rw [hMB]
  rw [hMB] at h
  have harith : acc + l / 1048576 * 1048576 = acc + l := by omega
  rw [harith]


theorem sum_chunkLen_genChunks (l : Nat) :
    ((genChunks l).map chunkLen).sum = l + (if l % MB = 0 then 0 else 1) := by
  rw [genChunks_closed]
  by_cases h : l % MB = 0
  · rw [if_pos h, if_pos h, List.append_nil, List.map_replicate, List.sum_replicate]
    have hc : chunkLen (MB, false) = MB := rfl
    rw [hc, smul_eq_mul, Nat.div_mul_cancel (Nat.dvd_of_mod_eq_zero h), Nat.add_zero]
  · rw [if_neg h, if_neg h, List.map_append, List.sum_append, List.map_replicate,
      List.sum_replicate]
    have hc : chunkLen (MB, false) = MB := rfl
    have hc2 : ([(l % MB, true)].map chunkLen).sum = l % MB + 1 := rfl
    rw [hc, hc2, smul_eq_mul]
    calc l / MB * MB + (l % MB + 1) = l / MB * MB + l % MB + 1 := by ring
      _ = l + 1 := by rw [Nat.div_add_mod']

theorem sum_fst_genChunks (l : Nat) :
    ((genChunks l).map Prod.fst).sum = l := by
  rw [genChunks_closed]
  by_cases h : l % MB = 0
  · rw [if_pos h, List.append_nil, List.map_replicate, List.sum_replicate, smul_eq_mul,
      Nat.div_mul_cancel (Nat.dvd_of_mod_eq_zero h)]
  · rw [if_neg h, List.map_append, List.sum_append, List.map_replicate, List.sum_replicate,
      smul_eq_mul]
    have hs : (([(l % MB, true)]).map Prod.fst).sum = l % MB := rfl
    rw [hs, Nat.div_add_mod']

theorem chunkTrace_le (cs : List (Nat × Bool)) (acc : Nat) :
    ∀ v ∈ chunkTrace cs acc, v ≤ acc + (cs.map chunkLen).sum := by
  induction cs generalizing acc with
  | nil => intro v hv; cases hv
  | cons ch rest ih =>
      intro v hv
      rw [chunkTrace] at hv
      rcases List.mem_cons.mp hv with h | h
      · subst h
        rw [List.map_cons, List.sum_cons]
        omega
      · by_cases hs : ch.2
        · rw [if_pos hs] at h; cases h
        · rw [if_neg hs] at h
          have := ih (acc + chunkLen ch) v h
          rw [List.map_cons, List.sum_cons]
          omega

theorem dlTrace_le (bufs : List (Nat × Bool)) (c : Nat) :
    ∀ v ∈ dlTrace bufs c, v ≤ c + downloadCount bufs := by
  induction bufs generalizing c with
  | nil => intro v hv; cases hv
  | cons b rest ih =>
      intro v hv
      obtain ⟨l, nl⟩ := b
      rw [dlTrace] at hv
      simp only [downloadCount]
      cases hcond : (decide (l = 0) || nl) with
      | true =>
          simp only [hcond] at hv ⊢
          simp at hv ⊢
          omega
      | false =>
          simp only [hcond] at hv ⊢
          simp at hv ⊢
          rcases hv with h | h
          · omega
          · have := ih (c + l) v h
            omega


theorem measStateAt_zero (bytes : Nat) (s : MeasState) (tr : List (Nat × Nat)) :
    measStateAt bytes s tr 0 = s := rfl

theorem measStateAt_cons_succ (bytes : Nat) (s : MeasState) (p : Nat × Nat)
    (rest : List (Nat × Nat)) (k : Nat) :
    measStateAt bytes s (p :: rest) (k + 1) =
      measStateAt bytes (measNext bytes s p.1 p.2) rest k := rfl

theorem measure_eq_some_iff (bytes : Nat) (s : MeasState) (tr : List (Nat × Nat)) (k : Nat) :
    measure bytes s tr = some k ↔
      k < tr.length ∧
      measStop bytes (measStateAt bytes s tr k) (tr.getD k (0, 0)).1 (tr.getD k (0, 0)).2
          = true ∧
      ∀ j < k, measStop bytes (measStateAt bytes s tr j) (tr.getD j (0, 0)).1
          (tr.getD j (0, 0)).2 = false := by
  induction tr generalizing s k with
  | nil =>
      simp [measure]
  | cons p rest ih =>
      obtain ⟨new_len, t⟩ := p
      rw [measure]
      by_cases hstop : measStop bytes s new_len t = true
      · rw [if_pos hstop]
        constructor
        · intro hk
          have hk0 : k = 0 := by
            have := Option.some.inj hk
            omega
          subst hk0
          refine ⟨by simp, ?_, by omega⟩
          rw [measStateAt_zero]
          simpa using hstop
        · rintro ⟨hlen, hk, hmin⟩
          match k with
          | 0 => rfl
          | k' + 1 =>
              have := hmin 0 (by omega)
              rw [measStateAt_zero] at this
              simp at this
              rw [hstop] at this
              cases this
      · rw [if_neg hstop]
        have hstop' : measStop bytes s new_len t = false := by
          cases h : measStop bytes s new_len t
          · rfl
          · exact absurd h hstop
        constructor
        · intro hk
          rcases Option.map_eq_some'.mp hk with ⟨k', hk', rfl⟩
          have hrest := (ih (measNext bytes s new_len t) k').mp hk'
          refine ⟨by simp; omega, ?_, ?_⟩
          · rw [measStateAt_cons_succ]
            simpa using hrest.2.1
          · intro j hj
            match j with
            | 0 =>
                rw [measStateAt_zero]
                simpa using hstop'
            | j' + 1 =>
                rw [measStateAt_cons_succ]
                simpa using hrest.2.2 j' (by omega)
        · rintro ⟨hlen, hk, hmin⟩
          match k with
          | 0 =>
              rw [measStateAt_zero] at hk
              simp at hk
              rw [hstop'] at hk
              cases hk
          | k' + 1 =>
              have hrest : measure bytes (measNext bytes s new_len t) rest = some k' := by
                rw [ih]
                refine ⟨by simp at hlen; omega, ?_, ?_⟩
                · rw [measStateAt_cons_succ] at hk
                  simpa using hk
                · intro j hj
                  have := hmin (j + 1) (by omega)
                  rw [measStateAt_cons_succ] at this
                  simpa using this
              rw [hrest]
              rfl


theorem joinResults_isErr {E A : Type} (rs : List (Except E A)) :
    isErr (joinResults rs) = rs.any isErr := by
  induction rs with
  | nil => rfl
  | cons r rest ih =>
      cases r with
      | error e => rfl
      | ok a =>
          rw [joinResults]
          have hmap : ∀ x : Except E (List A), isErr (x.map (a :: ·)) = isErr x := by
            intro x; cases x <;> rfl
          rw [hmap, ih]
          rfl

theorem joinedCount_eq {E A : Type} (rs : List (Except E A)) :
    joinedCount rs = min rs.length (rs.findIdx isErr + 1) := by
  induction rs with
  | nil => rfl
  | cons r rest ih =>
      cases r with
      | error e =>
          rw [joinedCount, List.findIdx_cons]
          have : isErr (Except.error e : Except E A) = true := rfl
          rw [this]
          simp
      | ok a =>
          rw [joinedCount, List.findIdx_cons]
          have : isErr (Except.ok a : Except E A) = false := rfl
          rw [this, ih]
          simp only [List.length_cons, cond_false]
          omega


theorem checkCount_append (xs ys : List DlEvent) (i : Nat) :
    checkCount (xs ++ ys) i = checkCount xs i + checkCount ys i := by
  induction xs with
  | nil => rw [List.nil_append, checkCount]; omega
  | cons e rest ih =>
      cases e with
      | add j a => rw [List.cons_append, checkCount, checkCount, ih]
      | check j => rw [List.cons_append, checkCount, checkCount, ih]; omega

theorem grandTotal_append (xs ys : List DlEvent) :
    grandTotal (xs ++ ys) = grandTotal xs + grandTotal ys := by
  induction xs with
  | nil => rw [List.nil_append, grandTotal]; omega
  | cons e rest ih =>
      cases e with
      | add j a => rw [List.cons_append, grandTotal, grandTotal, ih]; omega
      | check j => rw [List.cons_append, grandTotal, grandTotal, ih]

theorem noAdd_append_add (xs : List DlEvent) (i a : Nat) :
    noAdd (xs ++ [DlEvent.add i a]) i = false := by
  induction xs with
  | nil =>
      rw [List.nil_append, noAdd]
      simp
  | cons e rest ih =>
      cases e with
      | add j b =>
          rw [List.cons_append, noAdd, ih]
          simp
      | check j => rw [List.cons_append, noAdd, ih]

theorem addsBeforeCheck_append_add (xs : List DlEvent) (i a : Nat)
    (h : 1 ≤ checkCount xs i) :
    addsBeforeCheck (xs ++ [DlEvent.add i a]) i = false := by
  induction xs with
  | nil => rw [checkCount] at h; omega
  | cons e rest ih =>
      cases e with
      | add j b =>
          rw [checkCount] at h
          rw [List.cons_append, addsBeforeCheck, ih h]
      | check j =>
          rw [List.cons_append, addsBeforeCheck]
          by_cases hj : j = i
          · rw [if_pos hj, noAdd_append_add]
          · rw [if_neg hj]
            rw [checkCount, if_neg hj] at h
            rw [ih (by omega)]

theorem obsAt_append_check (xs : List DlEvent) (c j : Nat)
    (h : checkCount xs j = 0) :
    obsAt (xs ++ [DlEvent.check j]) c j = some (c + grandTotal xs) := by
  induction xs generalizing c with
  | nil =>
      rw [List.nil_append, obsAt, if_pos rfl, grandTotal]
      rw [Nat.add_zero]
  | cons e rest ih =>
      cases e with
      | add k a =>
          rw [checkCount] at h
          rw [List.cons_append, obsAt, grandTotal, ih (c + a) h]
          congr 1
          omega
      | check k =>
          rw [checkCount] at h
          by_cases hk : k = j
          · rw [if_pos hk] at h; omega
          · rw [if_neg hk] at h
            rw [List.cons_append, obsAt, if_neg hk, grandTotal, ih c (by omega)]

theorem grandTotal_eq_sum (n : Nat) (tr : List DlEvent) (h : allIdxLt n tr = true) :
    grandTotal tr = ∑ i ∈ Finset.range n, addTotal tr i := by
  induction tr with
  | nil =>
      rw [grandTotal]
      have : ∀ i ∈ Finset.range n, addTotal [] i = 0 := by
        intro i _; rfl
      rw [Finset.sum_congr rfl this, Finset.sum_const, smul_eq_mul, Nat.mul_zero]
  | cons e rest ih =>
      rw [allIdxLt, List.all_cons, Bool.and_eq_true] at h
      obtain ⟨he, hrest⟩ := h
      have ihr := ih hrest
      cases e with
      | add j a =>
          rw [grandTotal, ihr]
          have hsplit : ∀ i ∈ Finset.range n,
              addTotal (DlEvent.add j a :: rest) i =
                (if j = i then a else 0) + addTotal rest i := by
            intro i _; rfl
          rw [Finset.sum_congr rfl hsplit, Finset.sum_add_distrib, Finset.sum_ite_eq]
          have hj : j ∈ Finset.range n := by
            rw [Finset.mem_range]
            rw [evIdx] at he
            exact of_decide_eq_true he
          rw [if_pos hj]
      | check j =>
          rw [grandTotal, ihr]
          have hsame : ∀ i ∈ Finset.range n,
              addTotal (DlEvent.check j :: rest) i = addTotal rest i := by
            intro i _; rfl
          rw [Finset.sum_congr rfl hsame]


theorem upload_sentinel_implies_mod (bytes : Nat)
    (h : (writeLoop (genChunks (bytes - (uploadMsg bytes).length))
        (uploadMsg bytes).length).2 = true) :
    (bytes - (uploadMsg bytes).length) % MB ≠ 0 := by
  intro h0
  rw [writeLoop_genChunks_nosent _ _ h0] at h
  cases h

/-- C1 (amended): for every successful single-connection upload the final
value of the shared byte counter is `targetBytes + 1`, not `targetBytes`:
the handshake length plus the payload chunk lengths counted by the write
loop include the one extra sentinel byte pushed beyond the generated
`length` bytes. -/
theorem upload_success_counter_eq_bytes_succ (bytes time : Nat) (line : List Char)
    (hok : isErr (upload bytes time line).2 = false) :
    (upload bytes time line).1 = bytes + 1 := by
  by_cases h0 : (bytes - (uploadMsg bytes).length) % MB = 0
  · exfalso
    unfold upload at hok
    simp only at hok
    rw [writeLoop_genChunks_nosent _ _ h0] at hok
    simp [isErr] at hok
  · have hpos : 0 < bytes - (uploadMsg bytes).length := by
      rcases Nat.eq_zero_or_pos (bytes - (uploadMsg bytes).length) with hz | hp
      · exact absurd (by rw [hz]; rfl) h0
      · exact hp
    unfold upload
    simp only
    rw [writeLoop_genChunks_sent _ _ h0]
    by_cases hack : uploadAckOk bytes line = true
    · rw [if_pos rfl, if_pos hack]
      simp only
      omega
    · rw [if_pos rfl, if_neg hack]
      simp only
      omega

/-- C1 counterexample: a successful upload of 100 bytes (the server line
does contain the string 100) leaves the counter at 101, not 100. -/
theorem upload_counter_c1_counterexample :
    (upload 100 1 ("100 ok").data).1 = 101 ∧
      isErr (upload 100 1 ("100 ok").data).2 = false ∧ (101 : Nat) ≠ 100 :=
  ⟨by decide, by decide, by decide⟩

/-- C1 witness: the amended statement at the concrete successful upload of
100 bytes. -/
theorem upload_success_counter_eq_bytes_succ_witness :
    isErr (upload 100 1 ("100 ok").data).2 = false ∧
      (upload 100 1 ("100 ok").data).1 = 100 + 1 :=
  ⟨by decide, upload_success_counter_eq_bytes_succ 100 1 ("100 ok").data (by decide)⟩

/-- C2 (amended): every counter value of an upload is at most
`targetBytes + 1` (the final addition reaches exactly `targetBytes + 1`
because of the sentinel byte), and every counter value of a download whose
read loop counts exactly `targetBytes` stays at most `targetBytes`. -/
theorem counter_bounded_by_target_succ (bytes : Nat)
    (hge : (uploadMsg bytes).length ≤ bytes)
    (bufs : List (Nat × Bool)) (hdl : downloadCount bufs = bytes) :
    ((uploadCounterValues bytes).all fun v => decide (v ≤ bytes + 1)) = true ∧
    ((dlTrace bufs 0).all fun v => decide (v ≤ bytes)) = true := by
  constructor
  · rw [List.all_eq_true]
    intro v hv
    show decide (v ≤ bytes + 1) = true
    apply decide_eq_true
    rw [uploadCounterValues] at hv
    rcases List.mem_cons.mp hv with h | h
    · omega
    · have h1 := chunkTrace_le _ _ v h
      rw [sum_chunkLen_genChunks] at h1
      by_cases h0 : (bytes - (uploadMsg bytes).length) % MB = 0
      · rw [if_pos h0] at h1; omega
      · rw [if_neg h0] at h1; omega
  · rw [List.all_eq_true]
    intro v hv
    show decide (v ≤ bytes) = true
    apply decide_eq_true
    have h1 := dlTrace_le bufs 0 v hv
    omega

/-- C2 counterexample: during the (successful) upload of 20 bytes the
counter takes the values 13 and 21, and 21 exceeds the requested 20. -/
theorem counter_invariant_c2_counterexample :
    uploadCounterValues 20 = [13, 21] ∧ 20 < 21 :=
  ⟨by decide, by decide⟩

/-- C2 witness: the amended bound at the concrete upload of 20 bytes and a
download trace counting exactly 20 bytes. -/
theorem counter_bounded_by_target_succ_witness :
    (uploadMsg 20).length ≤ 20 ∧ downloadCount [(5, false), (15, true)] = 20 ∧
      (((uploadCounterValues 20).all fun v => decide (v ≤ 20 + 1)) = true ∧
        ((dlTrace [(5, false), (15, true)] 0).all fun v => decide (v ≤ 20)) = true) :=
  ⟨by decide, by decide,
    counter_bounded_by_target_succ 20 (by decide) [(5, false), (15, true)] (by decide)⟩


/-- C3 (amended): `download` fails if and only if the final counter value
differs from `targetBytes`, and on equality returns the computed
throughput; but the transfer-interrupted error is the fixed message
`"Download was interrupted"`, which carries neither the requested size nor
the observed byte count. -/
theorem download_interrupted_iff (bytes time : Nat) (bufs : List (Nat × Bool)) :
    ((download bytes time bufs).2 = Except.error "Download was interrupted" ↔
      downloadCount bufs ≠ bytes) ∧
    (isErr (download bytes time bufs).2 = false ↔ downloadCount bufs = bytes) ∧
    (download bytes time bufs).1 = downloadCount bufs := by
  unfold download downloadFinish
  by_cases heq : downloadCount bufs = bytes
  · rw [if_neg (by omega)]
    refine ⟨?_, ?_, rfl⟩
    · simp [heq]
    · simp [isErr, heq]
  · rw [if_pos heq]
    refine ⟨?_, ?_, rfl⟩
    · simp [heq]
    · simp [isErr, heq]

/-- C3 counterexample: the download errors for requested size 5 with 3
observed bytes and for requested size 7 with 2 observed bytes are the very
same value, so the error cannot carry the requested size or the observed
count. -/
theorem download_error_c3_counterexample :
    downloadFinish 5 1 3 = downloadFinish 7 1 2 ∧
      downloadFinish 5 1 3 = Except.error "Download was interrupted" ∧
      ((5 : Nat), (3 : Nat)) ≠ ((7 : Nat), (2 : Nat)) :=
  ⟨by rfl, by rfl, by decide⟩

/-- C3 witness: the amended statement at a concrete truncated download
(3 of 5 requested bytes). -/
theorem download_interrupted_iff_witness :
    ((download 5 1 [(3, true)]).2 = Except.error "Download was interrupted" ↔
      downloadCount [(3, true)] ≠ 5) ∧
    (isErr (download 5 1 [(3, true)]).2 = false ↔ downloadCount [(3, true)] = 5) ∧
    (download 5 1 [(3, true)]).1 = downloadCount [(3, true)] :=
  download_interrupted_iff 5 1 [(3, true)]

/-- C4 (amended): the payload generator appends the sentinel to the last
chunk, and only to it, exactly when the remaining payload
`targetBytes - handshakeLength` is not a positive multiple of `MB`; when it
is such a multiple (e.g. remaining payload exactly `MB`) no chunk carries a
sentinel and the write loop ends without observing one (the subsequent
`rx.recv()` then fails). -/
theorem upload_sentinel_structure (bytes : Nat)
    (_hge : (uploadMsg bytes).length ≤ bytes) :
    genChunks (bytes - (uploadMsg bytes).length) =
      List.replicate ((bytes - (uploadMsg bytes).length) / MB) (MB, false) ++
        (if (bytes - (uploadMsg bytes).length) % MB = 0 then []
          else [((bytes - (uploadMsg bytes).length) % MB, true)]) ∧
    (writeLoop (genChunks (bytes - (uploadMsg bytes).length)) (uploadMsg bytes).length).2
      = !decide ((bytes - (uploadMsg bytes).length) % MB = 0) := by
  refine ⟨genChunks_closed _, ?_⟩
  by_cases h0 : (bytes - (uploadMsg bytes).length) % MB = 0
  · rw [writeLoop_genChunks_nosent _ _ h0, decide_eq_true h0]
    rfl
  · rw [writeLoop_genChunks_sent _ _ h0, decide_eq_false h0]
    rfl

/-- C4 counterexample: for `targetBytes = 1048594 = MB + 18` (which exceeds
the 18-byte handshake) the generator emits exactly one chunk, of size `MB`
and with no sentinel, and the upload fails on the closed channel instead of
terminating on a sentinel-carrying chunk. -/
theorem upload_sentinel_c4_counterexample :
    (uploadMsg 1048594).length = 18 ∧ (18 : Nat) < 1048594 ∧
      genChunks (1048594 - (uploadMsg 1048594).length) = [(MB, false)] ∧
      (upload 1048594 1 []).2 = Except.error UploadError.recvClosed :=
  ⟨by decide, by decide, by decide, by rfl⟩

/-- C4 witness: the amended statement at `targetBytes = 100`, whose 86
remaining payload bytes are not a multiple of `MB`, so the single final
chunk carries the sentinel. -/
theorem upload_sentinel_structure_witness :
    (uploadMsg 100).length ≤ 100 ∧
      (genChunks (100 - (uploadMsg 100).length) =
        List.replicate ((100 - (uploadMsg 100).length) / MB) (MB, false) ++
          (if (100 - (uploadMsg 100).length) % MB = 0 then []
            else [((100 - (uploadMsg 100).length) % MB, true)]) ∧
      (writeLoop (genChunks (100 - (uploadMsg 100).length)) (uploadMsg 100).length).2
        = !decide ((100 - (uploadMsg 100).length) % MB = 0)) :=
  ⟨by decide, upload_sentinel_structure 100 (by decide)⟩


/-- C5 (amended): the sampler loop breaks at exactly the first iteration
whose observed counter value reaches `targetBytes` or whose elapsed time
exceeds 20 seconds measured from the most recent speed report (the reset
state tracked by `measStateAt`), not from the sampler's start; the sampler
is a pure observer of the trace, so its termination cannot affect the
transfer. -/
theorem measure_terminates_iff (bytes : Nat) (s : MeasState) (tr : List (Nat × Nat))
    (k : Nat) :
    measure bytes s tr = some k ↔
      k < tr.length ∧
      (bytes ≤ (tr.getD k (0, 0)).1 ∨
        20000000 < (tr.getD k (0, 0)).2 - (measStateAt bytes s tr k).old_time) ∧
      ∀ j, j < k →
        ¬(bytes ≤ (tr.getD j (0, 0)).1 ∨
          20000000 < (tr.getD j (0, 0)).2 - (measStateAt bytes s tr j).old_time) := by
  constructor
  · intro h
    obtain ⟨h1, h2, h3⟩ := (measure_eq_some_iff bytes s tr k).mp h
    refine ⟨h1, ?_, ?_⟩
    · rw [measStop] at h2
      simpa using h2
    · intro j hj
      have h4 := h3 j hj
      rw [measStop] at h4
      simp only [Bool.or_eq_false_iff, decide_eq_false_iff_not] at h4
      simp only [not_or]
      exact ⟨h4.1, h4.2⟩
  · rintro ⟨h1, h2, h3⟩
    apply (measure_eq_some_iff bytes s tr k).mpr
    refine ⟨h1, ?_, ?_⟩
    · rw [measStop]
      simpa using h2
    · intro j hj
      have h4 := h3 j hj
      rw [measStop]
      simp only [not_or] at h4
      simp only [Bool.or_eq_false_iff, decide_eq_false_iff_not]
      exact ⟨h4.1, h4.2⟩

/-- C5 counterexample: with `targetBytes = 64` the sampler reports a speed
at 10 s (resetting its reference instant) and then at 21 s since start — 
more than 20 seconds after the sampler started with the counter still short
of the target — the loop keeps polling: the watchdog measures time since
the last report, not since the sampler started. -/
theorem measure_watchdog_c5_counterexample :
    measure 64 ⟨0, 0⟩ [(10, 10000000), (20, 21000000)] = none ∧
      (20000000 : Nat) < 21000000 - 0 ∧ ¬((64 : Nat) ≤ 20) :=
  ⟨by decide, by decide, by decide⟩

/-- C5 witness: the characterization at a trace whose first observation
already reaches the target, so the loop stops at index 0. -/
theorem measure_terminates_iff_witness :
    measure 64 ⟨0, 0⟩ [(100, 5)] = some 0 ↔
      0 < ([((100 : Nat), (5 : Nat))] : List (Nat × Nat)).length ∧
      (64 ≤ (([((100 : Nat), (5 : Nat))] : List (Nat × Nat)).getD 0 (0, 0)).1 ∨
        20000000 < (([((100 : Nat), (5 : Nat))] : List (Nat × Nat)).getD 0 (0, 0)).2 -
          (measStateAt 64 ⟨0, 0⟩ [(100, 5)] 0).old_time) ∧
      ∀ j, j < 0 →
        ¬(64 ≤ (([((100 : Nat), (5 : Nat))] : List (Nat × Nat)).getD j (0, 0)).1 ∨
          20000000 < (([((100 : Nat), (5 : Nat))] : List (Nat × Nat)).getD j (0, 0)).2 -
            (measStateAt 64 ⟨0, 0⟩ [(100, 5)] j).old_time) :=
  measure_terminates_iff 64 ⟨0, 0⟩ [(100, 5)] 0

/-- C6: the multi-connection orchestrators round the byte budget down to
`floor(targetBytes / N) * N`, hand each of the `N` executors exactly
`effectiveBytes / N = targetBytes / N` bytes (so the shares sum back to the
effective budget, which never exceeds the request), and report the
aggregate throughput `effectiveBytes * 8 / elapsed`. -/
theorem mt_partition (bytes n time : Nat) (hn : 1 ≤ n) :
    mtEffectiveBytes bytes n = bytes / n * n ∧
    mtShare bytes n = bytes / n ∧
    n * mtShare bytes n = mtEffectiveBytes bytes n ∧
    mtEffectiveBytes bytes n ≤ bytes ∧
    mtThroughput bytes n time = (mtEffectiveBytes bytes n : ℚ) * 8 / time := by
  have hshare : mtShare bytes n = bytes / n := by
    rw [mtShare, mtEffectiveBytes, Nat.mul_div_cancel _ (by omega)]
  refine ⟨rfl, hshare, ?_, Nat.div_mul_le_self bytes n, ?_⟩
  · rw [hshare, mtEffectiveBytes, Nat.mul_comm]
  · rw [mtThroughput]
    ring

/-- C6 witness: splitting 100 bytes over 3 connections yields an effective
budget of 99 bytes and three shares of 33. -/
theorem mt_partition_witness :
    (1 : Nat) ≤ 3 ∧
      (mtEffectiveBytes 100 3 = 100 / 3 * 3 ∧
        mtShare 100 3 = 100 / 3 ∧
        3 * mtShare 100 3 = mtEffectiveBytes 100 3 ∧
        mtEffectiveBytes 100 3 ≤ 100 ∧
        mtThroughput 100 3 7 = (mtEffectiveBytes 100 3 : ℚ) * 8 / 7) :=
  ⟨by decide, mt_partition 100 3 7 (by decide)⟩


/-- C7: after a complete payload, `upload` fails with the
transfer-interrupted error carrying the requested size and the received
line if and only if the acknowledgement line does not contain the decimal
representation of `targetBytes` as a substring; the check is containment,
not equality or parsing, so any superstring passes. -/
theorem upload_ack_containment (bytes time : Nat) (line : List Char)
    (hsent : (bytes - (uploadMsg bytes).length) % MB ≠ 0) :
    ((upload bytes time line).2 = Except.error (UploadError.interrupted bytes line) ↔
      ¬ (toString bytes).data <:+: line) ∧
    (isErr (upload bytes time line).2 = false ↔ (toString bytes).data <:+: line) := by
  unfold upload
  simp only
  rw [writeLoop_genChunks_sent _ _ hsent, if_pos rfl]
  by_cases hack : uploadAckOk bytes line = true
  · rw [if_pos hack]
    rw [uploadAckOk] at hack
    have hinf := of_decide_eq_true hack
    simp [isErr, hinf]
  · rw [if_neg hack]
    rw [uploadAckOk] at hack
    have hninf : ¬ (toString bytes).data <:+: line := fun hp => hack (decide_eq_true hp)
    simp [isErr, hninf]

/-- C7 witness: requesting 5000000 bytes while the server echoes the
superstring line 15000000 bytes: containment succeeds, so the upload is
accepted even though the echoed number differs from the request. -/
theorem upload_ack_containment_witness :
    (5000000 - (uploadMsg 5000000).length) % MB ≠ 0 ∧
      (((upload 5000000 1 ("15000000 bytes").data).2 =
          Except.error (UploadError.interrupted 5000000 ("15000000 bytes").data) ↔
        ¬ (toString 5000000).data <:+: ("15000000 bytes").data) ∧
      (isErr (upload 5000000 1 ("15000000 bytes").data).2 = false ↔
        (toString 5000000).data <:+: ("15000000 bytes").data)) :=
  ⟨by decide, upload_ack_containment 5000000 1 ("15000000 bytes").data (by decide)⟩

/-- C8 (amended): a batch is reported failed exactly when some executor
fails, but the join loop only waits for the executors up to and including
the first failing one in join (= spawn) order; the remaining handles are
dropped, detaching their threads instead of awaiting them. -/
theorem mt_join_first_failure (bytes thread time : Nat)
    (urs : List (Except UploadError ℚ)) (drs : List (Except String ℚ)) :
    isErr (upload_mt bytes thread time urs) = urs.any isErr ∧
    isErr (download_mt bytes thread time drs) = drs.any isErr ∧
    joinedCount urs = min urs.length (urs.findIdx isErr + 1) ∧
    joinedCount drs = min drs.length (drs.findIdx isErr + 1) := by
  have hmap : ∀ (E A B : Type) (f : A → B) (x : Except E A), isErr (x.map f) = isErr x := by
    intro E A B f x
    cases x <;> rfl
  refine ⟨?_, ?_, joinedCount_eq urs, joinedCount_eq drs⟩
  · unfold upload_mt
    rw [hmap, joinResults_isErr]
  · unfold download_mt
    rw [hmap, joinResults_isErr]

/-- C8 counterexample: with the first of two executors failing, the join
loop waits for one executor only — not for every other executor — while the
batch is still reported failed. -/
theorem mt_join_c8_counterexample :
    joinedCount [Except.error "boom", Except.ok (1 : ℚ)] = 1 ∧
      ([Except.error "boom", Except.ok (1 : ℚ)] : List (Except String ℚ)).length = 2 ∧
      (1 : Nat) ≠ 2 ∧
      isErr (download_mt 10 2 1 [Except.error "boom", Except.ok (1 : ℚ)]) = true :=
  ⟨by rfl, by rfl, by decide, by rfl⟩

/-- C8 witness: the amended statement at a concrete batch whose second of
three executors fails: two executors are joined, the third is detached. -/
theorem mt_join_first_failure_witness :
    isErr (upload_mt 10 3 1 [Except.ok 2, Except.error UploadError.recvClosed, Except.ok 3])
        = ([Except.ok 2, Except.error UploadError.recvClosed,
            Except.ok (3 : ℚ)] : List (Except UploadError ℚ)).any isErr ∧
      isErr (download_mt 10 3 1 [Except.ok 2, Except.error "x", Except.ok 3])
        = ([Except.ok 2, Except.error "x", Except.ok (3 : ℚ)] :
            List (Except String ℚ)).any isErr ∧
      joinedCount [Except.ok 2, Except.error UploadError.recvClosed, Except.ok (3 : ℚ)]
        = min ([Except.ok 2, Except.error UploadError.recvClosed,
            Except.ok (3 : ℚ)] : List (Except UploadError ℚ)).length
            (([Except.ok 2, Except.error UploadError.recvClosed,
              Except.ok (3 : ℚ)] : List (Except UploadError ℚ)).findIdx isErr + 1) ∧
      joinedCount [Except.ok 2, Except.error "x", Except.ok (3 : ℚ)]
        = min ([Except.ok 2, Except.error "x", Except.ok (3 : ℚ)] :
            List (Except String ℚ)).length
            (([Except.ok 2, Except.error "x", Except.ok (3 : ℚ)] :
              List (Except String ℚ)).findIdx isErr + 1) :=
  mt_join_first_failure 10 3 1
    [Except.ok 2, Except.error UploadError.recvClosed, Except.ok 3]
    [Except.ok 2, Except.error "x", Except.ok 3]


theorem wfTrace_spec (n share : Nat) (tr : List DlEvent) (h : wfTrace n share tr = true) :
    allIdxLt n tr = true ∧
      ∀ i, i < n → addTotal tr i = share ∧ checkCount tr i = 1 ∧
        addsBeforeCheck tr i = true := by
  rw [wfTrace, Bool.and_eq_true] at h
  obtain ⟨h1, h2⟩ := h
  refine ⟨h1, ?_⟩
  intro i hi
  rw [List.all_eq_true] at h2
  have := h2 i (List.mem_range.mpr hi)
  simp only [Bool.and_eq_true, beq_iff_eq] at this
  exact ⟨this.1.1, this.1.2, this.2⟩

/-- C9: in any well-formed interleaving of a fully successful
multi-connection download with `n ≥ 2` connections of `share ≥ 1` bytes
each, the executor whose validation read comes last observes the aggregate
counter `n * share`, which differs from its own per-connection share, so
its final check yields the transfer-interrupted error: the batch fails even
though every connection received its full share. -/
theorem download_mt_obs_ne_share (n share : Nat) (tr : List DlEvent)
    (hn : 2 ≤ n) (hs : 1 ≤ share) (hwf : wfTrace n share tr = true) :
    ∃ j, j < n ∧ obsAt tr 0 j = some (n * share) ∧ n * share ≠ share ∧
      downloadFinish share 1 (n * share) = Except.error "Download was interrupted" := by
  obtain ⟨halt, hall⟩ := wfTrace_spec n share tr hwf
  have hne : tr ≠ [] := by
    intro h0
    have h1 := (hall 0 (by omega)).2.1
    rw [h0] at h1
    rw [checkCount] at h1
    omega
  rcases List.eq_nil_or_concat' tr with h0 | ⟨xs, e, hxe⟩
  · exact absurd h0 hne
  cases e with
  | add i a =>
      have hi : i < n := by
        have hmem : DlEvent.add i a ∈ tr := by
          rw [hxe]
          exact List.mem_append_right _ (List.mem_singleton_self _)
        rw [allIdxLt, List.all_eq_true] at halt
        exact of_decide_eq_true (halt _ hmem)
      have hcc : 1 ≤ checkCount xs i := by
        have h1 := (hall i hi).2.1
        rw [hxe, checkCount_append] at h1
        have h2 : checkCount [DlEvent.add i a] i = 0 := by
          rw [checkCount, checkCount]
        omega
      have habc := (hall i hi).2.2
      rw [hxe, addsBeforeCheck_append_add xs i a hcc] at habc
      cases habc
  | check j =>
      have hj : j < n := by
        have hmem : DlEvent.check j ∈ tr := by
          rw [hxe]
          exact List.mem_append_right _ (List.mem_singleton_self _)
        rw [allIdxLt, List.all_eq_true] at halt
        exact of_decide_eq_true (halt _ hmem)
      have hcc0 : checkCount xs j = 0 := by
        have h1 := (hall j hj).2.1
        rw [hxe, checkCount_append] at h1
        have h2 : checkCount [DlEvent.check j] j = 1 := by
          rw [checkCount, if_pos rfl, checkCount]
        omega
      have hgt : grandTotal xs = n * share := by
        have h1 : grandTotal tr = grandTotal xs := by
          rw [hxe, grandTotal_append]
          have h2 : grandTotal [DlEvent.check j] = 0 := by
            rw [grandTotal, grandTotal]
          omega
        have h2 := grandTotal_eq_sum n tr halt
        have h3 : ∑ i ∈ Finset.range n, addTotal tr i = ∑ _i ∈ Finset.range n, share :=
          Finset.sum_congr rfl fun i hi => (hall i (Finset.mem_range.mp hi)).1
        rw [Finset.sum_const, Finset.card_range, smul_eq_mul] at h3
        omega
      have hobs : obsAt tr 0 j = some (n * share) := by
        rw [hxe]
        have h1 := obsAt_append_check xs 0 j hcc0
        rw [Nat.zero_add, hgt] at h1
        exact h1
      have hne2 : n * share ≠ share := by
        have h2 : 2 * share ≤ n * share := Nat.mul_le_mul_right share hn
        omega
      refine ⟨j, hj, hobs, hne2, ?_⟩
      rw [downloadFinish, if_pos hne2]


/-- C9 witness: a fully successful two-connection download of one byte per
connection, in the interleaving where both additions precede both
validation reads: the last reader observes the aggregate 2 and fails its
check against its own share 1. -/
theorem download_mt_obs_ne_share_witness :
    (2 : Nat) ≤ 2 ∧ (1 : Nat) ≤ 1 ∧
      wfTrace 2 1 [DlEvent.add 0 1, DlEvent.add 1 1, DlEvent.check 0, DlEvent.check 1]
        = true ∧
      (∃ j, j < 2 ∧
        obsAt [DlEvent.add 0 1, DlEvent.add 1 1, DlEvent.check 0, DlEvent.check 1] 0 j
          = some (2 * 1) ∧ 2 * 1 ≠ 1 ∧
        downloadFinish 1 1 (2 * 1) = Except.error "Download was interrupted") :=
  ⟨by decide, by decide, by decide,
    download_mt_obs_ne_share 2 1
      [DlEvent.add 0 1, DlEvent.add 1 1, DlEvent.check 0, DlEvent.check 1]
      (by decide) (by decide) (by decide)⟩

/-- C10: `upload` lacks a guard for `targetBytes` below the handshake
length: the checked subtraction `bytes - msg.len()` panics (debug profile),
and the wrapping subtraction (release profile) produces a remaining-payload
count within the handshake length of `2 ^ 64`, which is exactly the total
payload the generator would then attempt to produce — never a clean error
return. -/
theorem upload_handshake_underflow (bytes : Nat)
    (h : bytes < (uploadMsg bytes).length) :
    usizeSubChecked bytes (uploadMsg bytes).length = none ∧
    USIZE - (uploadMsg bytes).length ≤ usizeSubWrap bytes (uploadMsg bytes).length ∧
    usizeSubWrap bytes (uploadMsg bytes).length < USIZE ∧
    ((genChunks (usizeSubWrap bytes (uploadMsg bytes).length)).map Prod.fst).sum
      = usizeSubWrap bytes (uploadMsg bytes).length := by
  refine ⟨?_, ?_, ?_, sum_fst_genChunks _⟩
  · rw [usizeSubChecked, if_pos h]
  · rw [usizeSubWrap]
    have hU : USIZE = 18446744073709551616 := rfl
    rw [hU]
    omega
  · rw [usizeSubWrap]
    have hU : USIZE = 18446744073709551616 := rfl
    rw [hU]
    omega

/-- C10 witness: requesting 0 bytes, below the 12-byte handshake
`UPLOAD 0 0`: the subtraction underflows and the wrapped remaining count is
within 12 bytes of `2 ^ 64`. -/
theorem upload_handshake_underflow_witness :
    (0 : Nat) < (uploadMsg 0).length ∧
      (usizeSubChecked 0 (uploadMsg 0).length = none ∧
        USIZE - (uploadMsg 0).length ≤ usizeSubWrap 0 (uploadMsg 0).length ∧
        usizeSubWrap 0 (uploadMsg 0).length < USIZE ∧
        ((genChunks (usizeSubWrap 0 (uploadMsg 0).length)).map Prod.fst).sum
          = usizeSubWrap 0 (uploadMsg 0).length) :=
  ⟨by decide, upload_handshake_underflow 0 (by decide)⟩

end Speedtest
